import Mathlib

/-! go-azer-logger: the visibility settings, the standard writer and the runtime.

A shallow embedding of `standard-output.go` and `runtime.go`.

Modelling conventions.

* A Go `string` is modelled by the list of its code points (`GoString`); the
  strings handled here are environment values and package names, taken to be
  valid UTF-8.  The separators `,` and `@` are ASCII, so splitting the code
  point list and splitting the byte string agree.
* A `*OutputSettings` is modelled by the triple it points to.  The only nil
  pointer the program produces is the second result of `parsePackageName`,
  modelled by `Option`.
* A Go `map[string]*OutputSettings` is modelled by an association list whose
  keys are pairwise distinct (`SettingsMap`); `m[k] = v` is `SettingsMap.store`,
  the two-valued read `v, ok := m[k]` is `SettingsMap.lookup`, `len(m)` is
  `SettingsMap.len`.
* The package variable `runtime` is passed explicitly.  A function on the
  runtime gives a `Run`: the runtime it leaves, the method calls it made on the
  writers, in order, and whether it panicked.  `Runtime.LogWith` is the method
  `Runtime.Log`; it takes the way each call of `Write` ends as an argument, and
  `Hook` takes the writers whose `Init` panics.  Nothing in the package
  recovers a panic.
* What a `StandardWriter` sends to its file is the list of its calls of
  `fmt.Fprintln`.  The clock, the colour codes and the printing of a duration
  come from outside the two files and are the fields of `Externals`.
-/

namespace Logger

/-- A Go string, as the list of its code points. -/
abbrev GoString := List Char

/-! ## The parts of the Go standard library used by the parsers -/

namespace unicode

/-- Go `unicode.IsSpace`: in Latin-1 the code points `\t \n \v \f \r`, space,
U+0085 and U+00A0; beyond Latin-1 the code points of the `White_Space` table. -/
def IsSpace (r : Char) : Bool :=
  let n := r.toNat
  (0x09 ≤ n && n ≤ 0x0D) || n == 0x20 || n == 0x85 || n == 0xA0 ||
  n == 0x1680 || (0x2000 ≤ n && n ≤ 0x200A) || n == 0x2028 || n == 0x2029 ||
  n == 0x202F || n == 0x205F || n == 0x3000

/-- Go `unicode.ToUpper` on the code points whose upper-case form is an ASCII
letter: `a`..`z`, U+0131 (dotless i, upper case `I`) and U+017F (long s, upper
case `S`).  Every other code point either is its own upper-case form or has a
non-ASCII one; the program only compares upper-cased text with the ASCII
constants `MUTE`, `TIMER` and `ERROR`, which cannot tell the two apart, and the
model leaves such a code point in place. -/
def ToUpper (r : Char) : Char :=
  let n := r.toNat
  if 0x61 ≤ n ∧ n ≤ 0x7A then Char.ofNat (n - 0x20)
  else if n = 0x131 then Char.ofNat 0x49
  else if n = 0x17F then Char.ofNat 0x53
  else r

end unicode

namespace strings

/-- Go `strings.TrimSpace`: the string without its leading and trailing white
space, as `unicode.IsSpace` defines it. -/
def TrimSpace (s : GoString) : GoString :=
  (s.dropWhile unicode.IsSpace).rdropWhile unicode.IsSpace

/-- Go `strings.ToUpper`: every code point mapped to its upper case. -/
def ToUpper (s : GoString) : GoString :=
  s.map unicode.ToUpper

/-- Go `strings.Split(s, sep)` for a one-character separator: the pieces of
`s` between the occurrences of `sep`, in order; one more piece than there are
occurrences, so the empty string gives the single empty piece. -/
def Split : GoString → Char → List GoString
  | [], _ => [[]]
  | c :: cs, sep =>
    if c = sep then [] :: Split cs sep
    else
      match Split cs sep with
      | [] => [[c]]
      | piece :: rest => (c :: piece) :: rest

/-- Go `strings.Join(elems, sep)` for a one-character separator: the elements
in order with `sep` between two neighbours. -/
def Join : List GoString → Char → GoString
  | [], _ => []
  | [a], _ => a
  | a :: b :: rest, sep => a ++ sep :: Join (b :: rest) sep

end strings

/-! ## runtime.go -/

/-- The struct `OutputSettings` of `runtime.go`. -/
structure OutputSettings where
  Info : Bool
  Timer : Bool
  Error : Bool
deriving DecidableEq, Repr

/-- The package variable `muted = &OutputSettings{}`: the zero value. -/
def muted : OutputSettings := { Info := false, Timer := false, Error := false }

/-- The package variable `verbose`. -/
def verbose : OutputSettings := { Info := true, Timer := true, Error := true }

/-! ## Go maps from package names to settings -/

/-- A `map[string]*OutputSettings`: entries with pairwise distinct keys. -/
structure SettingsMap where
  entries : List (GoString × OutputSettings)
  nodup : (entries.map Prod.fst).Nodup

namespace SettingsMap

/-- The map literal `map[string]*OutputSettings{}`. -/
def empty : SettingsMap := ⟨[], List.nodup_nil⟩

/-- The keys of the map. -/
def keys (m : SettingsMap) : List GoString := m.entries.map Prod.fst

/-- The read `v, ok := m[k]`: `some v` when `ok`, `none` otherwise. -/
def lookup (m : SettingsMap) (k : GoString) : Option OutputSettings :=
  (m.entries.find? (fun e => e.1 == k)).map Prod.snd

/-- The builtin `len(m)`: the number of entries. -/
def len (m : SettingsMap) : Nat := m.entries.length

theorem store_nodup (m : SettingsMap) (k : GoString) (v : OutputSettings) :
    (((k, v) :: m.entries.filter (fun e => e.1 != k)).map Prod.fst).Nodup := by
  rw [List.map_cons, List.nodup_cons]
  refine ⟨?_, ?_⟩
  · intro h
    rcases List.mem_map.1 h with ⟨e, he, hk⟩
    have h2 := (List.mem_filter.1 he).2
    simp [hk] at h2
  · exact (m.nodup.sublist ((List.filter_sublist _).map Prod.fst))

/-- The assignment `m[k] = v`: the entry of `k` is replaced, or added when `k`
is not yet a key; every other entry is kept. -/
def store (m : SettingsMap) (k : GoString) (v : OutputSettings) : SettingsMap :=
  ⟨(k, v) :: m.entries.filter (fun e => e.1 != k), store_nodup m k v⟩

end SettingsMap

/-! ## standard-output.go -/

/-- The function `parseVerbosityLevel` of `standard-output.go`. -/
def parseVerbosityLevel (val : GoString) : OutputSettings :=
  let val := strings.ToUpper (strings.TrimSpace val)
  if val = "MUTE".toList then
    { Info := false, Timer := false, Error := false }
  else
    let s : OutputSettings := { Info := true, Timer := true, Error := true }
    let s := if val = "TIMER".toList then { s with Info := false } else s
    let s := if val = "ERROR".toList then { s with Info := false, Timer := false } else s
    s

/-- The function `parsePackageName`: the pieces of `input` between `@`, the
trimmed first piece as name, and the verbosity of the second piece when there
is one (`none` is the nil pointer). -/
def parsePackageName (input : GoString) : GoString × Option OutputSettings :=
  let parsed := strings.Split input '@'
  let name := strings.TrimSpace (parsed.headD [])
  if 1 < parsed.length then
    (name, some (parseVerbosityLevel (parsed.getD 1 [])))
  else
    (name, none)

/-- One iteration of the loop of `parsePackageSettings`. -/
def parsePackageSettings.step (defaultOutputSettings : OutputSettings)
    (all : SettingsMap) (item : GoString) : SettingsMap :=
  let (name, verbosity) := parsePackageName item
  let verbosity := match verbosity with
    | none => defaultOutputSettings
    | some v => v
  all.store name verbosity

/-- The function `parsePackageSettings`: the loop over the pieces of `input`
between commas, starting from the empty map. -/
def parsePackageSettings (input : GoString) (defaultOutputSettings : OutputSettings) :
    SettingsMap :=
  let items := strings.Split input ','
  items.foldl (parsePackageSettings.step defaultOutputSettings) SettingsMap.empty

/-- The struct `StandardWriter`; `Target` is the identity of the open file. -/
structure StandardWriter where
  ColorsEnabled : Bool
  Target : Nat
  Settings : SettingsMap

/-- The method `StandardWriter.LoggerSettings`. -/
def StandardWriter.LoggerSettings (sw : StandardWriter) (p : GoString) : OutputSettings :=
  match sw.Settings.lookup p with
  | some settings => settings
  | none =>
    match sw.Settings.lookup "*".toList with
    | some settings => settings
    | none => muted

/-- The method `StandardWriter.IsEnabled`. -/
def StandardWriter.IsEnabled (sw : StandardWriter) (logger level : GoString) : Bool :=
  let settings := sw.LoggerSettings logger
  if level = "INFO".toList then settings.Info
  else if level = "ERROR".toList then settings.Error
  else if level = "TIMER".toList then settings.Timer
  else false

/-- The function `NewStandardOutput`; `getenv` is `os.Getenv`, which gives the
empty string for a variable that is not set. -/
def NewStandardOutput (getenv : GoString → GoString) (file : Nat) : StandardWriter :=
  let defaultOutputSettings := parseVerbosityLevel (getenv "LOG_LEVEL".toList)
  { ColorsEnabled := true
    Target := file
    Settings := parsePackageSettings (getenv "LOG".toList) defaultOutputSettings }

/-! ## The text of a line -/

/-- Modelled from the spec: the struct `Log` is declared outside the two source
files.  Its fields are those `standard-output.go` reads: the package, the level,
the message, the attributes (`none` is the nil pointer; otherwise the key-value
pairs in the order in which the run iterates the map, each value as `%v` prints
it) and the elapsed nanoseconds of a timer event. -/
structure Log where
  Package : GoString
  Level : GoString
  Message : GoString
  Attrs : Option (List (GoString × GoString))
  ElapsedNano : Int
deriving DecidableEq

/-- Modelled from the spec: what the formatter takes from outside the two source
files.  `red`, `reset` and `colorFor` are declared in another file of the
package (the escape sequences and the colour of a package name); `now` is
`time.Now().Format("15:04:05.000")` at the call, and `duration n` is
`fmt.Sprintf("%v", time.Duration(n))`. -/
structure Externals where
  red : GoString
  reset : GoString
  colorFor : GoString → GoString
  now : GoString
  duration : Int → GoString

/-- The method `StandardWriter.getColorFor`.  The source passes the type name
`string` to `colorFor`; the model passes the package name. -/
def StandardWriter.getColorFor (ext : Externals) (sw : StandardWriter)
    (packageName : GoString) : GoString :=
  if !sw.ColorsEnabled then "".toList else ext.colorFor packageName

/-- The method `StandardWriter.resetCode`. -/
def StandardWriter.resetCode (ext : Externals) (sw : StandardWriter) : GoString :=
  if sw.ColorsEnabled then ext.reset else "".toList

/-- The method `StandardWriter.PrettyLabelExt`; `fmt.Sprintf` with `%s` verbs
is the concatenation of the pieces. -/
def StandardWriter.PrettyLabelExt (ext : Externals) (sw : StandardWriter) (log : Log) :
    GoString :=
  if log.Level = "ERROR".toList then
    if sw.ColorsEnabled then
      "(".toList ++ ext.red ++ "!".toList ++ sw.resetCode ext ++ ")".toList
    else "(ERROR)".toList
  else if log.Level = "TIMER".toList then
    let elapsed := ext.duration log.ElapsedNano
    if sw.ColorsEnabled then
      "(".toList ++ sw.resetCode ext ++ elapsed ++ sw.getColorFor ext log.Package ++ ")".toList
    else "(".toList ++ elapsed ++ ")".toList
  else "".toList

/-- The method `StandardWriter.PrettyLabel`. -/
def StandardWriter.PrettyLabel (ext : Externals) (sw : StandardWriter) (log : Log) :
    GoString :=
  let label := log.Package ++ sw.PrettyLabelExt ext log ++ ":".toList
  if sw.ColorsEnabled then
    sw.getColorFor ext log.Package ++ label ++ sw.resetCode ext
  else label

/-- The method `StandardWriter.PrettyAttrs`. -/
def StandardWriter.PrettyAttrs (_sw : StandardWriter)
    (attrs : Option (List (GoString × GoString))) : GoString :=
  match attrs with
  | none => "".toList
  | some pairs =>
    pairs.foldl (fun result kv => result ++ " ".toList ++ kv.1 ++ "=".toList ++ kv.2) "".toList

/-- The method `StandardWriter.PrettyFormat`. -/
def StandardWriter.PrettyFormat (ext : Externals) (sw : StandardWriter) (log : Log) :
    GoString :=
  ext.now ++ " ".toList ++ sw.PrettyLabel ext log ++ " ".toList ++ log.Message ++
    sw.PrettyAttrs log.Attrs

/-- The method `StandardWriter.Format`. -/
def StandardWriter.Format (ext : Externals) (sw : StandardWriter) (log : Log) : GoString :=
  sw.PrettyFormat ext log

/-- One call `fmt.Fprintln(target, text)`: it sends `text` and a newline to the
file `target`. -/
structure Fprintln where
  target : Nat
  text : GoString
deriving DecidableEq

/-- The method `StandardWriter.Write`: the calls of `fmt.Fprintln` it makes.
The result of `fmt.Fprintln` is dropped. -/
def StandardWriter.Write (ext : Externals) (sw : StandardWriter) (log : Log) :
    List Fprintln :=
  if sw.IsEnabled log.Package log.Level then
    [{ target := sw.Target, text := sw.Format ext log }]
  else []

/-! ## The runtime -/

/-- A value of the interface `OutputWriter`: a `*StandardWriter`, or a writer
of another type that has the methods `Init` and `Write`, known by a name. -/
inductive OutputWriter where
  | standard (sw : StandardWriter)
  | other (name : Nat)

/-- A method call on a writer. -/
inductive Call where
  | Init (w : OutputWriter)
  | Write (w : OutputWriter) (log : Log)

/-- How a call `w.Write(log)` ends.  `Write` has no result, so the caller sees
two cases only: the call returns or it panics.  `failed` is a call that returns
although the output did not reach its destination, as `StandardWriter.Write`
does when `fmt.Fprintln` reports an error. -/
inductive WriteResult where
  | done
  | failed
  | panicked

/-- The struct `Runtime`. -/
structure Runtime where
  Writers : List OutputWriter

/-- What a function on the runtime leaves: the runtime, the method calls made
on the writers, in order, and whether the function panicked. -/
structure Run where
  runtime : Runtime
  calls : List Call
  panicked : Bool

/-- The call `w.Write(log)` made by `Runtime.Log`: the call, and whether it
panicked. -/
def OutputWriter.Write (result : OutputWriter → Log → WriteResult) (w : OutputWriter)
    (log : Log) : List Call × Bool :=
  ([Call.Write w log],
    match result w log with
    | WriteResult.panicked => true
    | _ => false)

/-- The loop `for _, w := range runtime.Writers { w.Write(log) }`; a panic of a
call ends the loop, since nothing recovers it. -/
def Runtime.rangeWriters (result : OutputWriter → Log → WriteResult) (log : Log) :
    List OutputWriter → List Call × Bool
  | [] => ([], false)
  | w :: ws =>
    let r := w.Write result log
    if r.2 then r
    else
      let rest := Runtime.rangeWriters result log ws
      (r.1 ++ rest.1, rest.2)

/-- The method `Runtime.Log`, where `result` tells how each call of `Write`
ends. -/
def Runtime.LogWith (result : OutputWriter → Log → WriteResult) (rt : Runtime) (log : Log) :
    Run :=
  if rt.Writers.length = 0 then
    { runtime := rt, calls := [], panicked := false }
  else if rt.Writers.length = 1 then
    match rt.Writers with
    | w :: _ =>
      let r := w.Write result log
      { runtime := rt, calls := r.1, panicked := r.2 }
    | [] => { runtime := rt, calls := [], panicked := true }
  else
    let r := Runtime.rangeWriters result log rt.Writers
    { runtime := rt, calls := r.1, panicked := r.2 }

/-- The general loop of `Runtime.Log` alone, without the two special cases for
no writer and for one writer: what section 4.4 of the specification asks to be
preserved. -/
def Runtime.LogLoop (result : OutputWriter → Log → WriteResult) (rt : Runtime) (log : Log) :
    Run :=
  let r := Runtime.rangeWriters result log rt.Writers
  { runtime := rt, calls := r.1, panicked := r.2 }

/-- The call `writer.Init()` made by `Hook`: the call, and whether it panicked.
`StandardWriter.Init` has an empty body and returns; `initPanics` tells, by
name, the other writers whose `Init` panics. -/
def OutputWriter.Init (initPanics : Nat → Bool) (w : OutputWriter) : List Call × Bool :=
  ([Call.Init w],
    match w with
    | OutputWriter.standard _ => false
    | OutputWriter.other name => initPanics name)

/-- The function `Hook` on the package's runtime: `writer.Init()`, then the
append.  A panic of `Init` ends `Hook` before the append, since nothing
recovers it. -/
def Hook (initPanics : Nat → Bool) (rt : Runtime) (writer : OutputWriter) : Run :=
  let r := writer.Init initPanics
  if r.2 then
    { runtime := rt, calls := r.1, panicked := true }
  else
    { runtime := { Writers := rt.Writers ++ [writer] }, calls := r.1, panicked := false }

/-- The function `SetOutput` on the package's runtime; `none` is the panic of
the assignment `runtime.Writers[0] = writer` when there is no writer. -/
def SetOutput (getenv : GoString → GoString) (rt : Runtime) (file : Nat) : Option Runtime :=
  let writer := OutputWriter.standard (NewStandardOutput getenv file)
  if 0 < rt.Writers.length then
    some { Writers := rt.Writers.set 0 writer }
  else none

/-! ## Lemmas on the string functions -/

namespace strings

theorem Split_ne_nil (s : GoString) (sep : Char) : Split s sep ≠ [] := by
  cases s with
  | nil => simp [Split]
  | cons c cs =>
    unfold Split
    split
    · simp
    · split <;> simp

theorem Split_of_not_mem (s : GoString) (sep : Char) (h : sep ∉ s) : Split s sep = [s] := by
  induction s with
  | nil => rfl
  | cons c cs ih =>
    have hc : ¬ c = sep := fun e => h (by simp [e])
    have hcs : sep ∉ cs := fun e => h (List.mem_cons_of_mem _ e)
    unfold Split
    rw [if_neg hc, ih hcs]

theorem Split_cons (c : Char) (cs : GoString) (sep : Char) :
    Split (c :: cs) sep =
      if c = sep then [] :: Split cs sep
      else
        match Split cs sep with
        | [] => [[c]]
        | piece :: rest => (c :: piece) :: rest := by
  rw [Split]

theorem Split_of_mem (s : GoString) (sep : Char) (h : sep ∈ s) :
    Split s sep =
      s.takeWhile (fun c => c != sep) :: Split ((s.dropWhile (fun c => c != sep)).drop 1) sep := by
  induction s with
  | nil => simp at h
  | cons c cs ih =>
    by_cases hc : c = sep
    · subst hc
      simp [Split_cons, List.takeWhile, List.dropWhile]
    · have hcs : sep ∈ cs := by
        rcases List.mem_cons.1 h with e | e
        · exact absurd e.symm hc
        · exact e
      have hb : (c != sep) = true := by simpa using hc
      rw [Split_cons, if_neg hc, ih hcs]
      simp [List.takeWhile, List.dropWhile, hb]

theorem Split_headD (s : GoString) (sep : Char) :
    (Split s sep).headD [] = s.takeWhile (fun c => c != sep) := by
  by_cases h : sep ∈ s
  · rw [Split_of_mem s sep h]; rfl
  · rw [Split_of_not_mem s sep h]
    have : ∀ c ∈ s, (fun c => c != sep) c = true := by
      intro c hc
      have : c ≠ sep := fun e => h (e ▸ hc)
      simpa using this
    simp [List.takeWhile_eq_self_iff.2 this]

end strings

/-! ## Lemmas on lists -/

theorem find?_filter_of_imp {α : Type} (p q : α → Bool)
    (hpq : ∀ x, p x = true → q x = true) (l : List α) :
    (l.filter q).find? p = l.find? p := by
  induction l with
  | nil => rfl
  | cons x l ih =>
    by_cases hq : q x = true
    · rw [List.filter_cons_of_pos hq, List.find?_cons, List.find?_cons, ih]
    · have hp : ¬ p x = true := fun e => hq (hpq x e)
      rw [List.filter_cons_of_neg hq, List.find?_cons_of_neg _ hp, ih]

/-! ## Lemmas on maps -/

namespace SettingsMap

theorem lookup_empty (k : GoString) : empty.lookup k = none := rfl

theorem lookup_store_self (m : SettingsMap) (k : GoString) (v : OutputSettings) :
    (m.store k v).lookup k = some v := by
  simp [store, lookup]

theorem lookup_store_of_ne (m : SettingsMap) (k k' : GoString) (v : OutputSettings)
    (h : k' ≠ k) : (m.store k' v).lookup k = m.lookup k := by
  have hk : (k' == k) = false := by simpa using h
  have key : (m.entries.filter (fun e => e.1 != k')).find? (fun e => e.1 == k) =
      m.entries.find? (fun e => e.1 == k) := by
    apply find?_filter_of_imp
    intro e he
    have : e.1 = k := by simpa using he
    simpa [this] using h.symm
  simp only [store, lookup, List.find?, hk, key]

theorem mem_keys_iff (m : SettingsMap) (k : GoString) :
    k ∈ m.keys ↔ ∃ v, m.lookup k = some v := by
  unfold keys lookup
  constructor
  · intro h
    rcases List.mem_map.1 h with ⟨e, he, hk⟩
    have : (m.entries.find? (fun e => e.1 == k)).isSome := by
      rw [List.find?_isSome]
      exact ⟨e, he, by simp [hk]⟩
    rcases Option.isSome_iff_exists.1 this with ⟨e', he'⟩
    exact ⟨e'.2, by simp [he']⟩
  · rintro ⟨v, hv⟩
    rcases Option.map_eq_some'.1 hv with ⟨e, he, _⟩
    have h1 := List.mem_of_find?_eq_some he
    have h2 := List.find?_some he
    exact List.mem_map.2 ⟨e, h1, by simpa using h2⟩

theorem not_mem_keys_iff (m : SettingsMap) (k : GoString) :
    k ∉ m.keys ↔ m.lookup k = none := by
  rw [mem_keys_iff]
  cases m.lookup k <;> simp

theorem len_eq_keys_length (m : SettingsMap) : m.len = m.keys.length := by
  simp [len, keys]

end SettingsMap

/-! ## The verbosity parser -/

/-- C1: for every string `s`, `parseVerbosityLevel s` is determined by
`t = ToUpper (TrimSpace s)`: `MUTE` gives the all-false triple, `TIMER` gives
Info off with Timer and Error on, `ERROR` gives only Error on, and every other
`t`, the empty string included, gives the all-true triple. -/
theorem parseVerbosityLevel_table (s : GoString) :
    parseVerbosityLevel s =
      (if strings.ToUpper (strings.TrimSpace s) = "MUTE".toList then
        { Info := false, Timer := false, Error := false }
      else if strings.ToUpper (strings.TrimSpace s) = "TIMER".toList then
        { Info := false, Timer := true, Error := true }
      else if strings.ToUpper (strings.TrimSpace s) = "ERROR".toList then
        { Info := false, Timer := false, Error := true }
      else { Info := true, Timer := true, Error := true }) ∧
    parseVerbosityLevel [] = { Info := true, Timer := true, Error := true } := by
  refine ⟨?_, by decide⟩
  have hTE : ¬ "TIMER".toList = "ERROR".toList := by decide
  simp only [parseVerbosityLevel]
  split_ifs with h1 h2 h3 h3
  · rfl
  · exact absurd (h3.symm.trans h2) hTE
  · rfl
  · rfl
  · rfl

/-! ## The lookup of a package's settings -/

/-- C2: `LoggerSettings` resolves to the entry of `p` when `p` is a key of the
settings, whatever the wildcard entry is; otherwise to the entry of `*` when
`*` is a key; otherwise to `muted`. -/
theorem LoggerSettings_lookup_order (sw : StandardWriter) (p : GoString) :
    (p ∈ sw.Settings.keys → some (sw.LoggerSettings p) = sw.Settings.lookup p) ∧
    (p ∉ sw.Settings.keys → "*".toList ∈ sw.Settings.keys →
      some (sw.LoggerSettings p) = sw.Settings.lookup "*".toList) ∧
    (p ∉ sw.Settings.keys → "*".toList ∉ sw.Settings.keys →
      sw.LoggerSettings p = muted) := by
  refine ⟨?_, ?_, ?_⟩
  · intro hp
    rcases (SettingsMap.mem_keys_iff _ _).1 hp with ⟨v, hv⟩
    simp [StandardWriter.LoggerSettings, hv]
  · intro hp hs
    rcases (SettingsMap.mem_keys_iff _ _).1 hs with ⟨v, hv⟩
    have hn := (SettingsMap.not_mem_keys_iff _ _).1 hp
    simp only [StandardWriter.LoggerSettings, hn, hv]
  · intro hp hs
    have hn := (SettingsMap.not_mem_keys_iff _ _).1 hp
    have hm := (SettingsMap.not_mem_keys_iff _ _).1 hs
    simp only [StandardWriter.LoggerSettings, hn, hm]

/-- Witness for C2: a map with the keys `db` and `*` read at `db` and at `web`,
and a map with the only key `db` read at `web`. -/
theorem LoggerSettings_lookup_order_witness :
    (some ((StandardWriter.mk true 2
        (parsePackageSettings "db@timer,*@error".toList verbose)).LoggerSettings "db".toList) =
      (parsePackageSettings "db@timer,*@error".toList verbose).lookup "db".toList) ∧
    (some ((StandardWriter.mk true 2
        (parsePackageSettings "db@timer,*@error".toList verbose)).LoggerSettings "web".toList) =
      (parsePackageSettings "db@timer,*@error".toList verbose).lookup "*".toList) ∧
    ((StandardWriter.mk true 2
        (parsePackageSettings "db@timer".toList verbose)).LoggerSettings "web".toList = muted) :=
  ⟨(LoggerSettings_lookup_order (StandardWriter.mk true 2
      (parsePackageSettings "db@timer,*@error".toList verbose)) "db".toList).1 (by decide),
   (LoggerSettings_lookup_order (StandardWriter.mk true 2
      (parsePackageSettings "db@timer,*@error".toList verbose)) "web".toList).2.1
      (by decide) (by decide),
   (LoggerSettings_lookup_order (StandardWriter.mk true 2
      (parsePackageSettings "db@timer".toList verbose)) "web".toList).2.2
      (by decide) (by decide)⟩

/-! ## The parser of one token -/

theorem parsePackageName_of_not_mem (tok : GoString) (h : '@' ∉ tok) :
    parsePackageName tok = (strings.TrimSpace tok, none) := by
  have hs : strings.Split tok '@' = [tok] := strings.Split_of_not_mem tok _ h
  simp [parsePackageName, hs]

theorem parsePackageName_of_split (a b : GoString) (h : '@' ∉ a) :
    parsePackageName (a ++ '@' :: b) =
      (strings.TrimSpace a,
        some (parseVerbosityLevel (b.takeWhile (fun c => c != '@')))) := by
  have hmem : '@' ∈ a ++ '@' :: b := by simp
  have hne : ∀ c ∈ a, (fun c => c != '@') c = true := by
    intro c hc
    have : c ≠ '@' := fun e => h (e ▸ hc)
    simpa using this
  have htake : (a ++ '@' :: b).takeWhile (fun c => c != '@') = a := by
    rw [List.takeWhile_append_of_pos hne]
    simp [List.takeWhile]
  have hdrop : (a ++ '@' :: b).dropWhile (fun c => c != '@') = '@' :: b := by
    rw [List.dropWhile_append_of_pos hne]
    simp [List.dropWhile]
  have hs := strings.Split_of_mem (a ++ '@' :: b) _ hmem
  rw [htake, hdrop] at hs
  have hlen : 1 < (strings.Split (a ++ '@' :: b) '@').length := by
    rw [hs]
    have := List.length_pos.2 (strings.Split_ne_nil (List.drop 1 ('@' :: b)) '@')
    simp only [List.length_cons]
    omega
  have hhead : (strings.Split (a ++ '@' :: b) '@').headD [] = a := by
    rw [hs]; rfl
  have hsnd : (strings.Split (a ++ '@' :: b) '@').getD 1 [] =
      b.takeWhile (fun c => c != '@') := by
    rw [hs]
    have := strings.Split_headD b '@'
    cases hb : strings.Split b '@' with
    | nil => exact absurd hb (strings.Split_ne_nil _ _)
    | cons x xs =>
      rw [hb] at this
      simpa [hb] using this
  simp only [parsePackageName, hlen, if_true, hhead, hsnd]

/-- C3, as stated, fails at `db@mute@x`: the setting is that of `mute`, the
all-false triple, and not that of the suffix `mute@x`, which is all-true. -/
theorem parsePackageName_second_at_counterexample :
    parsePackageName "db@mute@x".toList = ("db".toList, some muted) ∧
    parseVerbosityLevel "mute@x".toList = verbose ∧
    (parsePackageName "db@mute@x".toList).2 ≠
      some (parseVerbosityLevel "mute@x".toList) := by
  decide

/-- C3, amended: for a token `a ++ "@" ++ b` where `a` has no `@` (so that `b`
is all of the text after the first `@`), the name is `a` trimmed and the
setting is `parseVerbosityLevel` of the part of `b` before its first `@`, which
is all of `b` when `b` has no `@`. -/
theorem parsePackageName_first_at (tok a b : GoString)
    (htok : tok = a ++ '@' :: b) (ha : '@' ∉ a) :
    parsePackageName tok =
      (strings.TrimSpace a,
        some (parseVerbosityLevel (b.takeWhile (fun c => c != '@')))) ∧
    ('@' ∉ b → parsePackageName tok = (strings.TrimSpace a, some (parseVerbosityLevel b))) := by
  subst htok
  refine ⟨parsePackageName_of_split a b ha, ?_⟩
  intro hb
  have hne : ∀ c ∈ b, (fun c => c != '@') c = true := by
    intro c hc
    have : c ≠ '@' := fun e => hb (e ▸ hc)
    simpa using this
  rw [parsePackageName_of_split a b ha, List.takeWhile_eq_self_iff.2 hne]

/-- Witness for C3 amended: the token ` db @mute@x`. -/
theorem parsePackageName_first_at_witness :
    parsePackageName " db @mute@x".toList =
      (strings.TrimSpace " db ".toList,
        some (parseVerbosityLevel ("mute@x".toList.takeWhile (fun c => c != '@')))) :=
  (parsePackageName_first_at " db @mute@x".toList " db ".toList "mute@x".toList
    (by decide) (by decide)).1

/-! ## The parser of the package settings -/

theorem step_lookup (f : OutputSettings) (m : SettingsMap) (t k : GoString) :
    (parsePackageSettings.step f m t).lookup k =
      if (parsePackageName t).1 = k then some ((parsePackageName t).2.getD f)
      else m.lookup k := by
  have hstep : parsePackageSettings.step f m t =
      m.store (parsePackageName t).1 ((parsePackageName t).2.getD f) := by
    unfold parsePackageSettings.step
    rcases parsePackageName t with ⟨name, _ | v⟩ <;> rfl
  rw [hstep]
  by_cases h : (parsePackageName t).1 = k
  · rw [if_pos h, ← h, SettingsMap.lookup_store_self]
  · rw [if_neg h, SettingsMap.lookup_store_of_ne _ _ _ _ h]

/-- The entry of `k` after the loop over `items`: that of the last item named
`k`, or the entry `k` had before the loop when no item is named `k`. -/
theorem foldl_step_lookup (f : OutputSettings) (items : List GoString) :
    ∀ (m : SettingsMap) (k : GoString),
      (items.foldl (parsePackageSettings.step f) m).lookup k =
        match items.reverse.find? (fun t => (parsePackageName t).1 == k) with
        | some t => some ((parsePackageName t).2.getD f)
        | none => m.lookup k := by
  induction items with
  | nil => intro m k; rfl
  | cons x xs ih =>
    intro m k
    rw [List.foldl_cons, ih, List.reverse_cons, List.find?_append]
    cases hfind : xs.reverse.find? (fun t => (parsePackageName t).1 == k) with
    | some t => rfl
    | none =>
      rw [step_lookup]
      by_cases hx : (parsePackageName x).1 = k
      · simp [List.find?, hx]
      · have hb : ((parsePackageName x).1 == k) = false := by simpa using hx
        simp [List.find?, hb, hx]

theorem parsePackageSettings_lookup (input : GoString) (f : OutputSettings) (k : GoString) :
    (parsePackageSettings input f).lookup k =
      ((strings.Split input ',').reverse.find? (fun t => (parsePackageName t).1 == k)).map
        (fun t => (parsePackageName t).2.getD f) := by
  unfold parsePackageSettings
  rw [foldl_step_lookup]
  cases (strings.Split input ',').reverse.find? (fun t => (parsePackageName t).1 == k) <;> rfl

theorem find?_reverse_last (pre post : List GoString) (tok n : GoString)
    (hn : (parsePackageName tok).1 = n)
    (hlast : ∀ t ∈ post, (parsePackageName t).1 ≠ n) :
    (pre ++ tok :: post).reverse.find? (fun t => (parsePackageName t).1 == n) = some tok := by
  rw [List.reverse_append, List.reverse_cons, List.append_assoc, List.find?_append]
  have hnone : post.reverse.find? (fun t => (parsePackageName t).1 == n) = none := by
    rw [List.find?_eq_none]
    intro t ht
    have := hlast t (List.mem_reverse.1 ht)
    simpa using this
  rw [hnone]
  simp [List.find?, hn]

/-- C4: when the last comma-separated token named `n` has no `@`, the parsed
settings map `n` to exactly the fallback `f` that was passed in, whatever `f`
is. -/
theorem parsePackageSettings_fallback_verbatim (input : GoString) (f : OutputSettings)
    (pre post : List GoString) (tok n : GoString)
    (hsplit : strings.Split input ',' = pre ++ tok :: post)
    (hn : (parsePackageName tok).1 = n)
    (hlast : ∀ t ∈ post, (parsePackageName t).1 ≠ n)
    (hat : '@' ∉ tok) :
    (parsePackageSettings input f).lookup n = some f := by
  rw [parsePackageSettings_lookup, hsplit, find?_reverse_last pre post tok n hn hlast]
  simp [parsePackageName_of_not_mem tok hat]

/-- Witness for C4: in `db@mute, db ,web` the last token named `db` is ` db `. -/
theorem parsePackageSettings_fallback_verbatim_witness :
    (parsePackageSettings "db@mute, db ,web".toList
      { Info := true, Timer := false, Error := true }).lookup "db".toList =
      some { Info := true, Timer := false, Error := true } :=
  parsePackageSettings_fallback_verbatim "db@mute, db ,web".toList
    { Info := true, Timer := false, Error := true }
    ["db@mute".toList] ["web".toList] " db ".toList "db".toList
    (by decide) (by decide) (by decide) (by decide)

/-- C5: the parsed settings map a name `n` to the setting of the last token
named `n` (the verbosity of its `@` part, or the fallback when it has none);
the tokens named `n` before it have no effect: the input without them gives a
map with the same entries.  The parser is a total function, so no error can
arise. -/
theorem parsePackageSettings_last_wins (input input' : GoString) (f : OutputSettings)
    (pre post : List GoString) (tok n : GoString)
    (hsplit : strings.Split input ',' = pre ++ tok :: post)
    (hn : (parsePackageName tok).1 = n)
    (hlast : ∀ t ∈ post, (parsePackageName t).1 ≠ n)
    (hsplit' : strings.Split input' ',' =
      pre.filter (fun t => (parsePackageName t).1 != n) ++ tok :: post) :
    (parsePackageSettings input f).lookup n = some ((parsePackageName tok).2.getD f) ∧
    ∀ k, (parsePackageSettings input' f).lookup k = (parsePackageSettings input f).lookup k := by
  refine ⟨?_, ?_⟩
  · rw [parsePackageSettings_lookup, hsplit, find?_reverse_last pre post tok n hn hlast]
    rfl
  · intro k
    rw [parsePackageSettings_lookup, parsePackageSettings_lookup, hsplit, hsplit']
    congr 1
    simp only [List.reverse_append, List.reverse_cons, List.append_assoc, List.find?_append]
    congr 1
    by_cases hk : (parsePackageName tok).1 = k
    · simp [List.find?, hk]
    · have hb : ((parsePackageName tok).1 == k) = false := by simpa using hk
      simp only [List.singleton_append, List.find?, hb]
      rw [← List.filter_reverse]
      apply find?_filter_of_imp
      intro t ht
      have h1 : (parsePackageName t).1 = k := by simpa using ht
      have h2 : (parsePackageName t).1 ≠ n := by
        rw [h1, ← hn]; exact fun e => hk e.symm
      simpa using h2

/-- Witness for C5: `db` occurs three times in `db@mute,web, db ,db@timer,*`. -/
theorem parsePackageSettings_last_wins_witness :
    (parsePackageSettings "db@mute,web, db ,db@timer,*".toList verbose).lookup "db".toList =
      some ((parsePackageName "db@timer".toList).2.getD verbose) ∧
    ∀ k, (parsePackageSettings "web,db@timer,*".toList verbose).lookup k =
      (parsePackageSettings "db@mute,web, db ,db@timer,*".toList verbose).lookup k :=
  parsePackageSettings_last_wins "db@mute,web, db ,db@timer,*".toList "web,db@timer,*".toList
    verbose ["db@mute".toList, "web".toList, " db ".toList] ["*".toList]
    "db@timer".toList "db".toList (by decide) (by decide) (by decide) (by decide)

theorem parsePackageSettings_mem_keys (input : GoString) (f : OutputSettings) (k : GoString) :
    k ∈ (parsePackageSettings input f).keys ↔
      k ∈ (strings.Split input ',').map (fun t => (parsePackageName t).1) := by
  rw [SettingsMap.mem_keys_iff, parsePackageSettings_lookup]
  constructor
  · rintro ⟨v, hv⟩
    rcases Option.map_eq_some'.1 hv with ⟨t, ht, _⟩
    have h1 := List.mem_reverse.1 (List.mem_of_find?_eq_some ht)
    have h2 := List.find?_some ht
    exact List.mem_map.2 ⟨t, h1, by simpa using h2⟩
  · intro h
    rcases List.mem_map.1 h with ⟨t, ht, hk⟩
    have : ((strings.Split input ',').reverse.find?
        (fun t => (parsePackageName t).1 == k)).isSome := by
      rw [List.find?_isSome]
      exact ⟨t, List.mem_reverse.2 ht, by simpa using hk⟩
    rcases Option.isSome_iff_exists.1 this with ⟨t', ht'⟩
    exact ⟨(parsePackageName t').2.getD f, by simp [ht']⟩

/-- C6: the number of entries of the parsed settings is the number of distinct
names among the comma-separated tokens; it is at least 1, at most the number
of tokens, and equal to it when the names are pairwise distinct. -/
theorem parsePackageSettings_len (input : GoString) (f : OutputSettings) :
    (parsePackageSettings input f).len =
      ((strings.Split input ',').map (fun t => (parsePackageName t).1)).dedup.length ∧
    1 ≤ (parsePackageSettings input f).len ∧
    (parsePackageSettings input f).len ≤ (strings.Split input ',').length ∧
    (((strings.Split input ',').map (fun t => (parsePackageName t).1)).Nodup →
      (parsePackageSettings input f).len = (strings.Split input ',').length) := by
  have hlen : (parsePackageSettings input f).len =
      ((strings.Split input ',').map (fun t => (parsePackageName t).1)).dedup.length := by
    have hnd : (parsePackageSettings input f).keys.Nodup := (parsePackageSettings input f).nodup
    rw [SettingsMap.len_eq_keys_length, ← List.card_toFinset,
      ← List.toFinset_card_of_nodup hnd]
    congr 1
    ext k
    simp only [List.mem_toFinset]
    exact parsePackageSettings_mem_keys input f k
  refine ⟨hlen, ?_, ?_, ?_⟩
  · rw [hlen]
    apply List.length_pos.2
    intro h
    have h2 := List.dedup_eq_nil _ |>.1 h
    exact strings.Split_ne_nil input ',' (List.map_eq_nil_iff.1 h2)
  · rw [hlen]
    have := (List.dedup_sublist
      ((strings.Split input ',').map (fun t => (parsePackageName t).1))).length_le
    simpa using this
  · intro hnd
    rw [hlen, List.Nodup.dedup hnd, List.length_map]

/-- Witness for C6: the three tokens of `db,web@mute,*` have distinct names. -/
theorem parsePackageSettings_len_witness :
    (parsePackageSettings "db,web@mute,*".toList verbose).len =
      (strings.Split "db,web@mute,*".toList ',').length :=
  (parsePackageSettings_len "db,web@mute,*".toList verbose).2.2.2 (by decide)

/-- C7: the empty input gives the map with exactly one entry, whose key is
the empty string and whose value is the fallback. -/
theorem parsePackageSettings_empty_input (f : OutputSettings) :
    (parsePackageSettings "".toList f).entries = [("".toList, f)] ∧
    (parsePackageSettings "".toList f).len = 1 ∧
    (parsePackageSettings "".toList f).lookup "".toList = some f := by
  refine ⟨rfl, rfl, ?_⟩
  rw [parsePackageSettings_lookup]
  rfl

/-! ## The visibility of a level -/

/-- C8: `IsEnabled` is the `Info` field of the resolved triple at the level
`INFO`, the `Timer` field at `TIMER`, the `Error` field at `ERROR`, and `false`
at every other level string, such as `info` or the empty string, also when the
resolved triple is all-true.  It is a total function: it cannot fail. -/
theorem IsEnabled_projection (sw : StandardWriter) (p level : GoString) :
    sw.IsEnabled p level =
      (if level = "INFO".toList then (sw.LoggerSettings p).Info
      else if level = "TIMER".toList then (sw.LoggerSettings p).Timer
      else if level = "ERROR".toList then (sw.LoggerSettings p).Error
      else false) ∧
    sw.IsEnabled p "info".toList = false ∧
    sw.IsEnabled p "".toList = false := by
  have hTE : ¬ "TIMER".toList = "ERROR".toList := by decide
  refine ⟨?_, ?_, ?_⟩
  · simp only [StandardWriter.IsEnabled]
    split_ifs with h1 h2 h3 <;> first | rfl | exact absurd (h3.symm.trans h2) hTE
  · simp only [StandardWriter.IsEnabled]
    rw [if_neg (by decide), if_neg (by decide), if_neg (by decide)]
  · simp only [StandardWriter.IsEnabled]
    rw [if_neg (by decide), if_neg (by decide), if_neg (by decide)]

/-- C9: with the empty settings map, `IsEnabled` is false for every package
name and every level string. -/
theorem IsEnabled_empty_settings (colors : Bool) (target : Nat) (p level : GoString) :
    (StandardWriter.mk colors target SettingsMap.empty).IsEnabled p level = false := by
  have hm : (StandardWriter.mk colors target SettingsMap.empty).LoggerSettings p = muted := by
    simp only [StandardWriter.LoggerSettings, SettingsMap.lookup_empty]
  simp only [StandardWriter.IsEnabled, hm]
  split_ifs <;> rfl

/-- C10: with the settings parsed from `users,database@timer,*@error` and the
fallback of the empty `LOG_LEVEL`: `users` has `INFO` on, `database` has
`TIMER` on and `INFO` off, `server` has `ERROR` on and `INFO` off; and every
package other than `users` and `database` resolves to the entry of `*@error`,
where only `ERROR` is on. -/
theorem IsEnabled_example (colors : Bool) (target : Nat) :
    (StandardWriter.mk colors target
      (parsePackageSettings "users,database@timer,*@error".toList
        (parseVerbosityLevel "".toList))).IsEnabled "users".toList "INFO".toList = true ∧
    (StandardWriter.mk colors target
      (parsePackageSettings "users,database@timer,*@error".toList
        (parseVerbosityLevel "".toList))).IsEnabled "database".toList "TIMER".toList = true ∧
    (StandardWriter.mk colors target
      (parsePackageSettings "users,database@timer,*@error".toList
        (parseVerbosityLevel "".toList))).IsEnabled "database".toList "INFO".toList = false ∧
    (StandardWriter.mk colors target
      (parsePackageSettings "users,database@timer,*@error".toList
        (parseVerbosityLevel "".toList))).IsEnabled "server".toList "ERROR".toList = true ∧
    (StandardWriter.mk colors target
      (parsePackageSettings "users,database@timer,*@error".toList
        (parseVerbosityLevel "".toList))).IsEnabled "server".toList "INFO".toList = false ∧
    ∀ p : GoString, p ≠ "users".toList → p ≠ "database".toList →
      (StandardWriter.mk colors target
        (parsePackageSettings "users,database@timer,*@error".toList
          (parseVerbosityLevel "".toList))).LoggerSettings p =
        { Info := false, Timer := false, Error := true } ∧
      ∀ level : GoString,
        (StandardWriter.mk colors target
          (parsePackageSettings "users,database@timer,*@error".toList
            (parseVerbosityLevel "".toList))).IsEnabled p level =
          decide (level = "ERROR".toList) := by
  have hent : (parsePackageSettings "users,database@timer,*@error".toList
      (parseVerbosityLevel "".toList)).entries =
      [("*".toList, { Info := false, Timer := false, Error := true }),
       ("database".toList, { Info := false, Timer := true, Error := true }),
       ("users".toList, { Info := true, Timer := true, Error := true })] := by
    decide
  have hwild : ∀ p : GoString, p ≠ "users".toList → p ≠ "database".toList →
      (StandardWriter.mk colors target
        (parsePackageSettings "users,database@timer,*@error".toList
          (parseVerbosityLevel "".toList))).LoggerSettings p =
        { Info := false, Timer := false, Error := true } := by
    intro p hu hd
    have hu2 : ("users".toList == p) = false := by simpa using Ne.symm hu
    have hd2 : ("database".toList == p) = false := by simpa using Ne.symm hd
    have hstar : ("*".toList == "*".toList) = true := by decide
    simp only [StandardWriter.LoggerSettings, SettingsMap.lookup, hent]
    by_cases hs : "*".toList = p
    · have hs2 : ("*".toList == p) = true := by simpa using hs
      simp only [List.find?, hs2, Option.map_some']
    · have hs2 : ("*".toList == p) = false := by simpa using hs
      simp only [List.find?, hs2, hu2, hd2, hstar, Option.map_none', Option.map_some']
  refine ⟨?_, ?_, ?_, ?_, ?_, ?_⟩
  · simp only [StandardWriter.IsEnabled, StandardWriter.LoggerSettings, SettingsMap.lookup, hent]
    decide
  · simp only [StandardWriter.IsEnabled, StandardWriter.LoggerSettings, SettingsMap.lookup, hent]
    decide
  · simp only [StandardWriter.IsEnabled, StandardWriter.LoggerSettings, SettingsMap.lookup, hent]
    decide
  · simp only [StandardWriter.IsEnabled, StandardWriter.LoggerSettings, SettingsMap.lookup, hent]
    decide
  · simp only [StandardWriter.IsEnabled, StandardWriter.LoggerSettings, SettingsMap.lookup, hent]
    decide
  · intro p hu hd
    refine ⟨hwild p hu hd, ?_⟩
    intro level
    simp only [StandardWriter.IsEnabled, hwild p hu hd]
    have hIE : ¬ "INFO".toList = "ERROR".toList := by decide
    have hTE : ¬ "TIMER".toList = "ERROR".toList := by decide
    split_ifs with h1 h2 h3
    · exact (decide_eq_false (fun e => hIE (h1.symm.trans e))).symm
    · exact (decide_eq_true h2).symm
    · exact (decide_eq_false h2).symm
    · exact (decide_eq_false h2).symm

/-- Witness for C10: the package `server` at the level `ERROR`. -/
theorem IsEnabled_example_witness :
    (StandardWriter.mk true 2
      (parsePackageSettings "users,database@timer,*@error".toList
        (parseVerbosityLevel "".toList))).IsEnabled "server".toList "ERROR".toList =
      decide ("ERROR".toList = "ERROR".toList) :=
  ((IsEnabled_example true 2).2.2.2.2.2 "server".toList (by decide) (by decide)).2 "ERROR".toList

/-! ## Settings that mute every package -/

theorem parsePackageSettings_mute_all_entries (f : OutputSettings) :
    (parsePackageSettings "*@mute".toList f).entries = [("*".toList, muted)] := by
  have hsplit : strings.Split "*@mute".toList ',' = ["*@mute".toList] := by decide
  have hname : parsePackageName "*@mute".toList = ("*".toList, some muted) := by decide
  simp only [parsePackageSettings, hsplit, List.foldl, parsePackageSettings.step, hname]
  rfl

theorem LoggerSettings_mute_all (colors : Bool) (target : Nat) (f : OutputSettings)
    (p : GoString) :
    (StandardWriter.mk colors target
      (parsePackageSettings "*@mute".toList f)).LoggerSettings p = muted := by
  have hstar : ("*".toList == "*".toList) = true := by decide
  simp only [StandardWriter.LoggerSettings, SettingsMap.lookup,
    parsePackageSettings_mute_all_entries]
  by_cases hs : "*".toList = p
  · have hs2 : ("*".toList == p) = true := by simpa using hs
    simp only [List.find?, hs2, Option.map_some']
  · have hs2 : ("*".toList == p) = false := by simpa using hs
    simp only [List.find?, hs2, hstar, Option.map_none', Option.map_some']

/-- C11: with the settings parsed from `*@mute`, whatever the fallback is,
`IsEnabled` is false for every package name at the levels `INFO`, `TIMER` and
`ERROR` (and at every other level string). -/
theorem IsEnabled_mute_all (colors : Bool) (target : Nat) (f : OutputSettings)
    (p level : GoString) :
    (StandardWriter.mk colors target
      (parsePackageSettings "*@mute".toList f)).IsEnabled p level = false := by
  simp only [StandardWriter.IsEnabled, LoggerSettings_mute_all]
  split_ifs <;> rfl

/-! ## The writer built from an empty `LOG` -/

theorem parsePackageSettings_nil_entries (f : OutputSettings) :
    (parsePackageSettings [] f).entries = [([], f)] := rfl

/-- C19: when `LOG` is empty, the writer that `NewStandardOutput` builds has
`IsEnabled` false for every non-empty package name and every level, whatever
`LOG_LEVEL` is; the settings parsed from `LOG_LEVEL` are those of the
empty-string package name only. -/
theorem NewStandardOutput_empty_LOG (getenv : GoString → GoString) (file : Nat)
    (p level : GoString)
    (hlog : getenv "LOG".toList = "".toList) (hp : p ≠ "".toList) :
    (NewStandardOutput getenv file).IsEnabled p level = false ∧
    (NewStandardOutput getenv file).LoggerSettings p = muted ∧
    (NewStandardOutput getenv file).LoggerSettings "".toList =
      parseVerbosityLevel (getenv "LOG_LEVEL".toList) := by
  have hp2 : (([] : GoString) == p) = false := by
    have : ¬ ([] : GoString) = p := fun e => hp e.symm
    simpa using this
  have hstar : (([] : GoString) == "*".toList) = false := by decide
  have hnil : (([] : GoString) == []) = true := by decide
  have hs : (NewStandardOutput getenv file).Settings.entries =
      [([], parseVerbosityLevel (getenv "LOG_LEVEL".toList))] := by
    show (parsePackageSettings (getenv "LOG".toList) _).entries = _
    rw [hlog]
    rfl
  have hm : (NewStandardOutput getenv file).LoggerSettings p = muted := by
    simp only [StandardWriter.LoggerSettings, SettingsMap.lookup, hs, List.find?, hp2, hstar,
      Option.map_none']
  refine ⟨?_, hm, ?_⟩
  · simp only [StandardWriter.IsEnabled, hm]
    split_ifs <;> rfl
  · have hnil2 : (([] : GoString) == "".toList) = true := hnil
    simp only [StandardWriter.LoggerSettings, SettingsMap.lookup, hs, List.find?, hnil2,
      Option.map_some']

/-- Witness for C19: `LOG` unset, `LOG_LEVEL=timer`, the package `db`. -/
theorem NewStandardOutput_empty_LOG_witness :
    (NewStandardOutput
      (fun k => if k = "LOG_LEVEL".toList then "timer".toList else "".toList) 2).IsEnabled
        "db".toList "ERROR".toList = false :=
  (NewStandardOutput_empty_LOG
    (fun k => if k = "LOG_LEVEL".toList then "timer".toList else "".toList) 2
    "db".toList "ERROR".toList (by decide) (by decide)).1

/-! ## The shape of the keys -/

namespace strings

theorem Split_piece_not_mem (s : GoString) (sep : Char) :
    ∀ piece ∈ Split s sep, sep ∉ piece := by
  induction s with
  | nil =>
    intro piece hp
    have : piece = [] := by simpa [Split] using hp
    simp [this]
  | cons c cs ih =>
    intro piece hp
    rw [Split_cons] at hp
    by_cases hc : c = sep
    · rw [if_pos hc] at hp
      rcases List.mem_cons.1 hp with h | h
      · simp [h]
      · exact ih piece h
    · rw [if_neg hc] at hp
      cases hsplit : Split cs sep with
      | nil => exact absurd hsplit (Split_ne_nil cs sep)
      | cons x xs =>
        rw [hsplit] at hp ih
        rcases List.mem_cons.1 hp with h | h
        · subst h
          intro hmem
          rcases List.mem_cons.1 hmem with h1 | h1
          · exact hc h1.symm
          · exact ih x (List.mem_cons_self _ _) h1
        · exact ih piece (List.mem_cons_of_mem _ h)

theorem TrimSpace_sublist (s : GoString) : (TrimSpace s).Sublist s :=
  (List.rdropWhile_prefix unicode.IsSpace _).sublist.trans (List.dropWhile_sublist _)

theorem TrimSpace_idempotent (s : GoString) : TrimSpace (TrimSpace s) = TrimSpace s := by
  unfold TrimSpace
  have hleft : List.dropWhile unicode.IsSpace
      ((s.dropWhile unicode.IsSpace).rdropWhile unicode.IsSpace) =
      (s.dropWhile unicode.IsSpace).rdropWhile unicode.IsSpace := by
    cases hu : s.dropWhile unicode.IsSpace with
    | nil => simp
    | cons a u =>
      have ha : unicode.IsSpace a = false := by
        have := List.head_dropWhile_not unicode.IsSpace s (by simp [hu])
        simpa [hu] using this
      have hpre : (List.rdropWhile unicode.IsSpace (a :: u)) <+: (a :: u) :=
        List.rdropWhile_prefix unicode.IsSpace _
      cases ht : List.rdropWhile unicode.IsSpace (a :: u) with
      | nil =>
        have := (List.rdropWhile_eq_nil_iff).1 ht a (List.mem_cons_self _ _)
        simp [ha] at this
      | cons b t =>
        rw [ht] at hpre
        have hb : b = a := by
          rcases hpre with ⟨r, hr⟩
          simp only [List.cons_append, List.cons.injEq] at hr
          exact hr.1
        subst hb
        simp [List.dropWhile, ha]
  rw [hleft, List.rdropWhile_idempotent]

end strings

theorem parsePackageName_fst (t : GoString) :
    (parsePackageName t).1 = strings.TrimSpace (t.takeWhile (fun c => c != '@')) := by
  unfold parsePackageName
  simp only [strings.Split_headD]
  split_ifs <;> rfl

/-- C18: every key of the parsed settings is its own `TrimSpace` (it has no
leading or trailing white space) and contains neither `,` nor `@`. -/
theorem parsePackageSettings_key_shape (input : GoString) (f : OutputSettings) (k : GoString)
    (hk : k ∈ (parsePackageSettings input f).keys) :
    strings.TrimSpace k = k ∧ ',' ∉ k ∧ '@' ∉ k := by
  rcases List.mem_map.1 ((parsePackageSettings_mem_keys input f k).1 hk) with ⟨t, ht, hname⟩
  rw [parsePackageName_fst] at hname
  subst hname
  have hsub : (strings.TrimSpace (t.takeWhile (fun c => c != '@'))).Sublist t :=
    (strings.TrimSpace_sublist _).trans (List.takeWhile_sublist _)
  refine ⟨strings.TrimSpace_idempotent _, ?_, ?_⟩
  · intro hc
    exact strings.Split_piece_not_mem input ',' t ht (hsub.subset hc)
  · intro hc
    have h1 := (strings.TrimSpace_sublist (t.takeWhile (fun c => c != '@'))).subset hc
    have h2 := List.mem_takeWhile_imp h1
    simp at h2

/-- Witness for C18: the key `db` of the settings parsed from ` db @mute,web`. -/
theorem parsePackageSettings_key_shape_witness :
    strings.TrimSpace "db".toList = "db".toList ∧ ',' ∉ "db".toList ∧ '@' ∉ "db".toList :=
  parsePackageSettings_key_shape " db @mute,web".toList verbose "db".toList (by decide)

/-! ## The order of the tokens -/

namespace strings

theorem Split_append_sep (a b : GoString) (sep : Char) (h : sep ∉ a) :
    Split (a ++ sep :: b) sep = a :: Split b sep := by
  induction a with
  | nil => simp [Split_cons]
  | cons c cs ih =>
    have hc : ¬ c = sep := fun e => h (by simp [e])
    have hcs : sep ∉ cs := fun e => h (List.mem_cons_of_mem _ e)
    rw [List.cons_append, Split_cons, if_neg hc, ih hcs]

theorem Split_Join (l : List GoString) (sep : Char) (hne : l ≠ [])
    (hsep : ∀ t ∈ l, sep ∉ t) : Split (Join l sep) sep = l := by
  induction l with
  | nil => exact absurd rfl hne
  | cons a rest ih =>
    cases rest with
    | nil => exact Split_of_not_mem a sep (hsep a (List.mem_cons_self _ _))
    | cons b rest =>
      have h1 : Join (a :: b :: rest) sep = a ++ sep :: Join (b :: rest) sep := rfl
      rw [h1, Split_append_sep a _ sep (hsep a (List.mem_cons_self _ _)),
        ih (List.cons_ne_nil _ _) (fun t ht => hsep t (List.mem_cons_of_mem _ ht))]

end strings

theorem find?_eq_of_perm_of_unique {α : Type} (p : α → Bool) (l₁ l₂ : List α)
    (hperm : l₁.Perm l₂)
    (huniq : ∀ a ∈ l₁, ∀ b ∈ l₁, p a = true → p b = true → a = b) :
    l₁.find? p = l₂.find? p := by
  cases h1 : l₁.find? p with
  | none =>
    cases h2 : l₂.find? p with
    | none => rfl
    | some b =>
      have hb := hperm.mem_iff.2 (List.mem_of_find?_eq_some h2)
      have := List.find?_eq_none.1 h1 b hb
      exact absurd (List.find?_some h2) this
  | some a =>
    cases h2 : l₂.find? p with
    | none =>
      have ha := hperm.mem_iff.1 (List.mem_of_find?_eq_some h1)
      have := List.find?_eq_none.1 h2 a ha
      exact absurd (List.find?_some h1) this
    | some b =>
      have hb := hperm.mem_iff.2 (List.mem_of_find?_eq_some h2)
      rw [huniq a (List.mem_of_find?_eq_some h1) b hb (List.find?_some h1) (List.find?_some h2)]

theorem SettingsMap.mem_entries_iff (m : SettingsMap) (k : GoString) (v : OutputSettings) :
    (k, v) ∈ m.entries ↔ m.lookup k = some v := by
  unfold SettingsMap.lookup
  constructor
  · intro h
    have hsome : (m.entries.find? (fun e => e.1 == k)).isSome := by
      rw [List.find?_isSome]
      exact ⟨(k, v), h, by simp⟩
    rcases Option.isSome_iff_exists.1 hsome with ⟨e, he⟩
    have hmem := List.mem_of_find?_eq_some he
    have hkey : e.1 = k := by simpa using List.find?_some he
    have : e = (k, v) := List.inj_on_of_nodup_map m.nodup hmem h hkey
    simp [he, this]
  · intro h
    rcases Option.map_eq_some'.1 h with ⟨e, he, hv⟩
    have hmem := List.mem_of_find?_eq_some he
    have hkey : e.1 = k := by simpa using List.find?_some he
    have : e = (k, v) := Prod.ext hkey hv
    rw [← this]
    exact hmem

/-- C20: two lists of comma-free tokens that are permutations of each other
and whose names are pairwise distinct give, comma-joined, the same mapping: the
same entry at every key, hence the same keys with the same triples. -/
theorem parsePackageSettings_perm (l₁ l₂ : List GoString) (f : OutputSettings)
    (hperm : l₁.Perm l₂)
    (hcomma : ∀ t ∈ l₁, ',' ∉ t)
    (hnd : (l₁.map (fun t => (parsePackageName t).1)).Nodup) :
    (∀ k, (parsePackageSettings (strings.Join l₁ ',') f).lookup k =
      (parsePackageSettings (strings.Join l₂ ',') f).lookup k) ∧
    (parsePackageSettings (strings.Join l₁ ',') f).entries.Perm
      (parsePackageSettings (strings.Join l₂ ',') f).entries := by
  have hlook : ∀ k, (parsePackageSettings (strings.Join l₁ ',') f).lookup k =
      (parsePackageSettings (strings.Join l₂ ',') f).lookup k := by
    intro k
    by_cases hne : l₁ = []
    · subst hne
      rw [List.nil_perm.1 hperm]
    · have hne2 : l₂ ≠ [] := fun e => hne (List.perm_nil.1 (e ▸ hperm))
      have hcomma2 : ∀ t ∈ l₂, ',' ∉ t := fun t ht => hcomma t (hperm.mem_iff.2 ht)
      rw [parsePackageSettings_lookup, parsePackageSettings_lookup,
        strings.Split_Join l₁ ',' hne hcomma, strings.Split_Join l₂ ',' hne2 hcomma2]
      congr 1
      apply find?_eq_of_perm_of_unique
      · exact (List.reverse_perm l₁).trans (hperm.trans (List.reverse_perm l₂).symm)
      · intro a ha b hb hpa hpb
        have ha2 : (parsePackageName a).1 = k := by simpa using hpa
        have hb2 : (parsePackageName b).1 = k := by simpa using hpb
        exact List.inj_on_of_nodup_map hnd (List.mem_reverse.1 ha) (List.mem_reverse.1 hb)
          (ha2.trans hb2.symm)
  refine ⟨hlook, ?_⟩
  apply (List.perm_ext_iff_of_nodup
    (List.Nodup.of_map _ (parsePackageSettings (strings.Join l₁ ',') f).nodup)
    (List.Nodup.of_map _ (parsePackageSettings (strings.Join l₂ ',') f).nodup)).2
  rintro ⟨k, v⟩
  rw [SettingsMap.mem_entries_iff, SettingsMap.mem_entries_iff, hlook]

/-- Witness for C20: the tokens `db@mute`, ` web ` and `*@error` in two orders. -/
theorem parsePackageSettings_perm_witness :
    (parsePackageSettings
        (strings.Join ["db@mute".toList, " web ".toList, "*@error".toList] ',')
        verbose).entries.Perm
      (parsePackageSettings
        (strings.Join ["*@error".toList, "db@mute".toList, " web ".toList] ',')
        verbose).entries :=
  (parsePackageSettings_perm ["db@mute".toList, " web ".toList, "*@error".toList]
    ["*@error".toList, "db@mute".toList, " web ".toList] verbose
    (by decide) (by decide) (by decide)).2

/-! ## The delivery of an event to the writers -/

theorem rangeWriters_of_no_panic (result : OutputWriter → Log → WriteResult) (log : Log)
    (ws : List OutputWriter) (h : ∀ w ∈ ws, result w log ≠ WriteResult.panicked) :
    Runtime.rangeWriters result log ws = (ws.map (fun w => Call.Write w log), false) := by
  induction ws with
  | nil => rfl
  | cons w ws ih =>
    have hw := h w (List.mem_cons_self _ _)
    have hr : (w.Write result log).2 = false := by
      unfold OutputWriter.Write
      cases hres : result w log
      · rfl
      · rfl
      · exact absurd hres hw
    have hc : (w.Write result log).1 = [Call.Write w log] := rfl
    rw [Runtime.rangeWriters]
    simp only [hr, hc, ih (fun x hx => h x (List.mem_cons_of_mem _ hx))]
    rfl

theorem rangeWriters_of_panic (result : OutputWriter → Log → WriteResult) (log : Log)
    (pre post : List OutputWriter) (w : OutputWriter)
    (hpre : ∀ x ∈ pre, result x log ≠ WriteResult.panicked)
    (hw : result w log = WriteResult.panicked) :
    Runtime.rangeWriters result log (pre ++ w :: post) =
      ((pre ++ [w]).map (fun w => Call.Write w log), true) := by
  induction pre with
  | nil =>
    have hr : (w.Write result log).2 = true := by
      unfold OutputWriter.Write
      rw [hw]
    have hc : (w.Write result log).1 = [Call.Write w log] := rfl
    rw [List.nil_append, Runtime.rangeWriters]
    simp only [hr, if_true]
    exact Prod.ext hc hr
  | cons x pre ih =>
    have hx := hpre x (List.mem_cons_self _ _)
    have hr : (x.Write result log).2 = false := by
      unfold OutputWriter.Write
      cases hres : result x log
      · rfl
      · rfl
      · exact absurd hres hx
    have hc : (x.Write result log).1 = [Call.Write x log] := rfl
    rw [List.cons_append, Runtime.rangeWriters]
    simp only [hr, hc, ih (fun y hy => hpre y (List.mem_cons_of_mem _ hy))]
    rfl

/-- The two special cases of `Runtime.LogWith` do what the loop does. -/
theorem LogWith_eq_rangeWriters (result : OutputWriter → Log → WriteResult) (rt : Runtime)
    (log : Log) :
    rt.LogWith result log =
      { runtime := rt
        calls := (Runtime.rangeWriters result log rt.Writers).1
        panicked := (Runtime.rangeWriters result log rt.Writers).2 } := by
  rcases rt with ⟨ws⟩
  cases ws with
  | nil => rfl
  | cons w ws =>
    cases ws with
    | nil =>
      simp only [Runtime.LogWith, List.length_singleton, one_ne_zero, if_false, if_true,
        Runtime.rangeWriters]
      split_ifs with h
      · rfl
      · have h2 : (w.Write result log).2 = false := by simpa using h
        have h3 : (w.Write result log).1 = [Call.Write w log] := rfl
        simp only [h2, h3, List.append_nil]
    | cons w2 ws =>
      simp [Runtime.LogWith]

/-- C12, as stated, fails at a panic.  A writer whose `Init` panics is not
appended: `Hook` leaves the writer sequence as it was and ends in the panic.
And after `Hook` of `other 1` and of `other 2` on the empty runtime, when the
`Write` of `other 1` panics, `Log` makes the one call on `other 1` and none on
`other 2`. -/
theorem Hook_panic_counterexample :
    (Hook (fun name => name == 9) { Writers := [OutputWriter.other 1] }
      (OutputWriter.other 9)).runtime.Writers.length = 1 ∧
    (Hook (fun name => name == 9) { Writers := [OutputWriter.other 1] }
      (OutputWriter.other 9)).panicked = true ∧
    (Runtime.LogWith
      (fun w _ => match w with
        | OutputWriter.other 1 => WriteResult.panicked
        | _ => WriteResult.done)
      (Hook (fun _ => false)
        (Hook (fun _ => false) { Writers := [] } (OutputWriter.other 1)).runtime
        (OutputWriter.other 2)).runtime
      { Package := "db".toList, Level := "INFO".toList, Message := "up".toList,
        Attrs := none, ElapsedNano := 0 }).calls.length = 1 ∧
    (Runtime.LogWith
      (fun w _ => match w with
        | OutputWriter.other 1 => WriteResult.panicked
        | _ => WriteResult.done)
      (Hook (fun _ => false)
        (Hook (fun _ => false) { Writers := [] } (OutputWriter.other 1)).runtime
        (OutputWriter.other 2)).runtime
      { Package := "db".toList, Level := "INFO".toList, Message := "up".toList,
        Attrs := none, ElapsedNano := 0 }).panicked = true :=
  ⟨rfl, rfl, rfl, rfl⟩

/-- C12, amended: `Hook w` makes the one call `w.Init()`.  When that call
returns, `Hook` returns and leaves the writers that were there, in their
order, followed by `w`; when it panics, `Hook` ends in the panic and leaves
the writers as they were.  After `Hook w1` and `Hook w2` whose `Init` calls
return, one `Log e` in which no call of `Write` panics makes the calls
`Write e` on the writers registered before, in their order, then one call on
`w1`, then one call on `w2`, and returns. -/
theorem Hook_appends (initPanics : Nat → Bool) (result : OutputWriter → Log → WriteResult)
    (rt : Runtime) (w w1 w2 : OutputWriter) (e : Log) :
    (Hook initPanics rt w).calls = [Call.Init w] ∧
    ((w.Init initPanics).2 = false →
      (Hook initPanics rt w).runtime.Writers = rt.Writers ++ [w] ∧
      (Hook initPanics rt w).panicked = false) ∧
    ((w.Init initPanics).2 = true →
      (Hook initPanics rt w).runtime = rt ∧
      (Hook initPanics rt w).panicked = true) ∧
    ((w1.Init initPanics).2 = false → (w2.Init initPanics).2 = false →
      (∀ x ∈ rt.Writers ++ [w1, w2], result x e ≠ WriteResult.panicked) →
      (Runtime.LogWith result
        (Hook initPanics (Hook initPanics rt w1).runtime w2).runtime e).calls =
        rt.Writers.map (fun x => Call.Write x e) ++ [Call.Write w1 e, Call.Write w2 e] ∧
      (Runtime.LogWith result
        (Hook initPanics (Hook initPanics rt w1).runtime w2).runtime e).panicked = false) := by
  have hcalls : ∀ (r : Runtime) (x : OutputWriter),
      (Hook initPanics r x).calls = [Call.Init x] := by
    intro r x
    simp only [Hook]
    split_ifs <;> rfl
  have hret : ∀ (r : Runtime) (x : OutputWriter), (x.Init initPanics).2 = false →
      (Hook initPanics r x).runtime.Writers = r.Writers ++ [x] ∧
      (Hook initPanics r x).panicked = false := by
    intro r x hx
    simp [Hook, hx]
  refine ⟨hcalls rt w, hret rt w, ?_, ?_⟩
  · intro hx
    simp [Hook, hx]
  · intro h1 h2 hres
    have hws : (Hook initPanics (Hook initPanics rt w1).runtime w2).runtime.Writers =
        rt.Writers ++ [w1, w2] := by
      rw [(hret _ w2 h2).1, (hret rt w1 h1).1]
      simp
    rw [LogWith_eq_rangeWriters, hws, rangeWriters_of_no_panic result e _ hres]
    simp

/-- Witness for C12 amended: the writers `other 1` and `other 2` hooked on a
runtime that holds `other 0`; no `Init` and no `Write` panics. -/
theorem Hook_appends_witness :
    (Runtime.LogWith (fun _ _ => WriteResult.done)
      (Hook (fun _ => false)
        (Hook (fun _ => false) { Writers := [OutputWriter.other 0] }
          (OutputWriter.other 1)).runtime
        (OutputWriter.other 2)).runtime
      { Package := "db".toList, Level := "INFO".toList, Message := "up".toList,
        Attrs := none, ElapsedNano := 0 }).calls =
      [OutputWriter.other 0].map
        (fun x => Call.Write x
          { Package := "db".toList, Level := "INFO".toList, Message := "up".toList,
            Attrs := none, ElapsedNano := 0 }) ++
      [Call.Write (OutputWriter.other 1)
        { Package := "db".toList, Level := "INFO".toList, Message := "up".toList,
          Attrs := none, ElapsedNano := 0 },
       Call.Write (OutputWriter.other 2)
        { Package := "db".toList, Level := "INFO".toList, Message := "up".toList,
          Attrs := none, ElapsedNano := 0 }] :=
  ((Hook_appends (fun _ => false) (fun _ _ => WriteResult.done)
    { Writers := [OutputWriter.other 0] } (OutputWriter.other 1) (OutputWriter.other 1)
    (OutputWriter.other 2)
    { Package := "db".toList, Level := "INFO".toList, Message := "up".toList,
      Attrs := none, ElapsedNano := 0 }).2.2.2 rfl rfl
    (fun _ _ h => WriteResult.noConfusion h)).1

/-- C13: on a runtime with at least one writer, `SetOutput file` returns; it
leaves the number of writers unchanged, puts at index 0 the standard writer
that `NewStandardOutput file` builds, whose target is `file`, and leaves the
writer at every index from 1 on as it was. -/
theorem SetOutput_replaces_first (getenv : GoString → GoString) (rt : Runtime) (file : Nat)
    (hlen : 1 ≤ rt.Writers.length) :
    ∃ rt', SetOutput getenv rt file = some rt' ∧
      rt'.Writers.length = rt.Writers.length ∧
      rt'.Writers[0]? = some (OutputWriter.standard (NewStandardOutput getenv file)) ∧
      (NewStandardOutput getenv file).Target = file ∧
      ∀ i : Nat, 1 ≤ i → rt'.Writers[i]? = rt.Writers[i]? := by
  have hpos : 0 < rt.Writers.length := hlen
  refine ⟨Runtime.mk (List.set rt.Writers 0
      (OutputWriter.standard (NewStandardOutput getenv file))), ?_, ?_, ?_, rfl, ?_⟩
  · simp only [SetOutput, hpos, if_true]
  · simp
  · simp [List.getElem?_set, hpos]
  · intro i hi
    have : ¬ 0 = i := by omega
    simp [List.getElem?_set, this]

/-- Witness for C13: a runtime with a standard writer and two other writers. -/
theorem SetOutput_replaces_first_witness :
    ∃ rt', SetOutput (fun _ => "".toList)
        { Writers := [OutputWriter.standard (NewStandardOutput (fun _ => "".toList) 2),
            OutputWriter.other 7, OutputWriter.other 8] } 5 = some rt' ∧
      rt'.Writers.length = 3 ∧
      rt'.Writers[0]? =
        some (OutputWriter.standard (NewStandardOutput (fun _ => "".toList) 5)) ∧
      (NewStandardOutput (fun _ => "".toList) 5).Target = 5 ∧
      ∀ i : Nat, 1 ≤ i → rt'.Writers[i]? =
        [OutputWriter.standard (NewStandardOutput (fun _ => "".toList) 2),
          OutputWriter.other 7, OutputWriter.other 8][i]? :=
  SetOutput_replaces_first (fun _ => "".toList)
    { Writers := [OutputWriter.standard (NewStandardOutput (fun _ => "".toList) 2),
        OutputWriter.other 7, OutputWriter.other 8] } 5 (by decide)

/-- C14, as stated, fails when a call of `Write` panics: with the writers
`other 1` and `other 2`, where the `Write` of `other 1` panics, `Log` makes the
one call on `other 1`, none on `other 2`, and ends in the panic. -/
theorem Log_panic_counterexample :
    (Runtime.LogWith
      (fun w _ => match w with
        | OutputWriter.other 1 => WriteResult.panicked
        | _ => WriteResult.done)
      { Writers := [OutputWriter.other 1, OutputWriter.other 2] }
      { Package := "db".toList, Level := "INFO".toList, Message := "up".toList,
        Attrs := none, ElapsedNano := 0 }).calls =
      [Call.Write (OutputWriter.other 1)
        { Package := "db".toList, Level := "INFO".toList, Message := "up".toList,
          Attrs := none, ElapsedNano := 0 }] ∧
    (Runtime.LogWith
      (fun w _ => match w with
        | OutputWriter.other 1 => WriteResult.panicked
        | _ => WriteResult.done)
      { Writers := [OutputWriter.other 1, OutputWriter.other 2] }
      { Package := "db".toList, Level := "INFO".toList, Message := "up".toList,
        Attrs := none, ElapsedNano := 0 }).panicked = true :=
  ⟨rfl, rfl⟩

/-- C14, amended: when no call of `Write` panics, also when the output of some
writer fails to reach its destination (`WriteResult.failed`), `Log e` makes the
call `Write e` on every writer, in order, and returns; when the `Write` of a
writer panics, `Log e` has made the calls up to that writer, makes none on the
writers after it, and ends in the panic. -/
theorem LogWith_failure (result : OutputWriter → Log → WriteResult) (rt : Runtime) (e : Log) :
    ((∀ w ∈ rt.Writers, result w e ≠ WriteResult.panicked) →
      (rt.LogWith result e).calls = rt.Writers.map (fun w => Call.Write w e) ∧
      (rt.LogWith result e).panicked = false) ∧
    (∀ pre w post, rt.Writers = pre ++ w :: post →
      (∀ x ∈ pre, result x e ≠ WriteResult.panicked) →
      result w e = WriteResult.panicked →
      (rt.LogWith result e).calls = (pre ++ [w]).map (fun w => Call.Write w e) ∧
      (rt.LogWith result e).panicked = true) := by
  refine ⟨?_, ?_⟩
  · intro h
    rw [LogWith_eq_rangeWriters, rangeWriters_of_no_panic result e rt.Writers h]
    exact ⟨rfl, rfl⟩
  · intro pre w post hws hpre hw
    rw [LogWith_eq_rangeWriters, hws, rangeWriters_of_panic result e pre post w hpre hw]
    exact ⟨rfl, rfl⟩

/-- Witness for C14 amended: three writers, the output of the first one fails
and no call panics: all three get the event. -/
theorem LogWith_failure_witness :
    (Runtime.LogWith
      (fun w _ => match w with
        | OutputWriter.other 1 => WriteResult.failed
        | _ => WriteResult.done)
      { Writers := [OutputWriter.other 1, OutputWriter.other 2, OutputWriter.other 3] }
      { Package := "db".toList, Level := "INFO".toList, Message := "up".toList,
        Attrs := none, ElapsedNano := 0 }).calls =
      [OutputWriter.other 1, OutputWriter.other 2, OutputWriter.other 3].map
        (fun w => Call.Write w
          { Package := "db".toList, Level := "INFO".toList, Message := "up".toList,
            Attrs := none, ElapsedNano := 0 }) ∧
    (Runtime.LogWith
      (fun w _ => match w with
        | OutputWriter.other 1 => WriteResult.failed
        | _ => WriteResult.done)
      { Writers := [OutputWriter.other 1, OutputWriter.other 2, OutputWriter.other 3] }
      { Package := "db".toList, Level := "INFO".toList, Message := "up".toList,
        Attrs := none, ElapsedNano := 0 }).panicked = false :=
  (LogWith_failure
    (fun w _ => match w with
      | OutputWriter.other 1 => WriteResult.failed
      | _ => WriteResult.done)
    { Writers := [OutputWriter.other 1, OutputWriter.other 2, OutputWriter.other 3] }
    { Package := "db".toList, Level := "INFO".toList, Message := "up".toList,
      Attrs := none, ElapsedNano := 0 }).1
    (by
      intro w hw
      simp only [List.mem_cons, List.mem_singleton, List.not_mem_nil, or_false] at hw
      rcases hw with h | h | h <;> subst h <;> simp)

/-- C16, as stated, fails at a panic: with the two writers `other 1` and
`other 2`, where the `Write` of `other 1` panics, `Log` makes one call of
`Write`, not two. -/
theorem Log_count_counterexample :
    (Runtime.LogWith
      (fun w _ => match w with
        | OutputWriter.other 1 => WriteResult.panicked
        | _ => WriteResult.done)
      { Writers := [OutputWriter.other 1, OutputWriter.other 2] }
      { Package := "db".toList, Level := "INFO".toList, Message := "up".toList,
        Attrs := none, ElapsedNano := 0 }).calls.length = 1 ∧
    (Runtime.mk [OutputWriter.other 1, OutputWriter.other 2]).Writers.length = 2 :=
  ⟨rfl, rfl⟩

/-- C16, amended: for every writer sequence, of any length, and however the
calls of `Write` end, `Log e` is the run of the general loop (the branches for
no writer and for one writer do what the loop does) and leaves the runtime as
it was; when no call of `Write` panics, `Log e` makes exactly one call
`Write e` per writer, the call number `i` being on the writer at index `i`,
and returns. -/
theorem Log_eq_LogLoop (result : OutputWriter → Log → WriteResult) (rt : Runtime) (e : Log) :
    rt.LogWith result e = rt.LogLoop result e ∧
    (rt.LogWith result e).runtime = rt ∧
    ((∀ w ∈ rt.Writers, result w e ≠ WriteResult.panicked) →
      (rt.LogWith result e).calls = rt.Writers.map (fun w => Call.Write w e) ∧
      (rt.LogWith result e).calls.length = rt.Writers.length ∧
      (∀ i : Nat, (rt.LogWith result e).calls[i]? =
        (rt.Writers[i]?).map (fun w => Call.Write w e)) ∧
      (rt.LogWith result e).panicked = false) := by
  refine ⟨?_, ?_, ?_⟩
  · rw [LogWith_eq_rangeWriters]
    rfl
  · rw [LogWith_eq_rangeWriters]
  · intro h
    have hc : (rt.LogWith result e).calls = rt.Writers.map (fun w => Call.Write w e) := by
      rw [LogWith_eq_rangeWriters, rangeWriters_of_no_panic result e rt.Writers h]
    refine ⟨hc, ?_, ?_, ?_⟩
    · rw [hc, List.length_map]
    · intro i
      rw [hc, List.getElem?_map]
    · rw [LogWith_eq_rangeWriters, rangeWriters_of_no_panic result e rt.Writers h]

/-- Witness for C16 amended: one writer, whose `Write` returns; `Log` takes the
branch for a single writer. -/
theorem Log_eq_LogLoop_witness :
    (Runtime.LogWith (fun _ _ => WriteResult.done) { Writers := [OutputWriter.other 1] }
      { Package := "db".toList, Level := "INFO".toList, Message := "up".toList,
        Attrs := none, ElapsedNano := 0 }).calls.length = 1 :=
  ((Log_eq_LogLoop (fun _ _ => WriteResult.done) { Writers := [OutputWriter.other 1] }
    { Package := "db".toList, Level := "INFO".toList, Message := "up".toList,
      Attrs := none, ElapsedNano := 0 }).2.2
    (fun _ _ h => WriteResult.noConfusion h)).2.1

/-! ## The label and the line of the standard writer -/

/-- C15, as stated, fails: with colors disabled the extension of an `ERROR`
event is `(ERROR)`, without exclamation mark, and the label of the package `db`
is `db(ERROR):`. -/
theorem PrettyLabelExt_error_counterexample :
    (StandardWriter.mk false 2 SettingsMap.empty).PrettyLabelExt
      { red := "<red>".toList, reset := "<reset>".toList,
        colorFor := fun _ => "<color>".toList, now := "12:00:00.000".toList,
        duration := fun _ => "1ms".toList }
      { Package := "db".toList, Level := "ERROR".toList, Message := "down".toList,
        Attrs := none, ElapsedNano := 0 } = "(ERROR)".toList ∧
    (StandardWriter.mk false 2 SettingsMap.empty).PrettyLabelExt
      { red := "<red>".toList, reset := "<reset>".toList,
        colorFor := fun _ => "<color>".toList, now := "12:00:00.000".toList,
        duration := fun _ => "1ms".toList }
      { Package := "db".toList, Level := "ERROR".toList, Message := "down".toList,
        Attrs := none, ElapsedNano := 0 } ≠ "(ERROR!)".toList ∧
    (StandardWriter.mk false 2 SettingsMap.empty).PrettyLabel
      { red := "<red>".toList, reset := "<reset>".toList,
        colorFor := fun _ => "<color>".toList, now := "12:00:00.000".toList,
        duration := fun _ => "1ms".toList }
      { Package := "db".toList, Level := "ERROR".toList, Message := "down".toList,
        Attrs := none, ElapsedNano := 0 } = "db(ERROR):".toList := by
  decide

/-- C15, amended: on a writer with colors disabled, the extension of an event
of level `ERROR` is the string `(ERROR)` and its label is the package followed
by `(ERROR):`; the extension of an event of level `INFO` is empty and its label
is the package followed by `:`. -/
theorem PrettyLabel_plain (ext : Externals) (sw : StandardWriter) (log : Log)
    (hc : sw.ColorsEnabled = false) :
    (log.Level = "ERROR".toList →
      sw.PrettyLabelExt ext log = "(ERROR)".toList ∧
      sw.PrettyLabel ext log = log.Package ++ "(ERROR):".toList) ∧
    (log.Level = "INFO".toList →
      sw.PrettyLabelExt ext log = "".toList ∧
      sw.PrettyLabel ext log = log.Package ++ ":".toList) := by
  refine ⟨?_, ?_⟩
  · intro hl
    have hext : sw.PrettyLabelExt ext log = "(ERROR)".toList := by
      simp only [StandardWriter.PrettyLabelExt, hl, hc, if_true]
      rfl
    refine ⟨hext, ?_⟩
    simp only [StandardWriter.PrettyLabel, hext, hc]
    simp
  · intro hl
    have h1 : ¬ "INFO".toList = "ERROR".toList := by decide
    have h2 : ¬ "INFO".toList = "TIMER".toList := by decide
    have hext : sw.PrettyLabelExt ext log = "".toList := by
      simp only [StandardWriter.PrettyLabelExt, hl, if_neg h1, if_neg h2]
    refine ⟨hext, ?_⟩
    simp only [StandardWriter.PrettyLabel, hext, hc]
    simp

/-- Witness for C15 amended: an `ERROR` event of the package `db`. -/
theorem PrettyLabel_plain_witness :
    (StandardWriter.mk false 2 SettingsMap.empty).PrettyLabel
      { red := "<red>".toList, reset := "<reset>".toList,
        colorFor := fun _ => "<color>".toList, now := "12:00:00.000".toList,
        duration := fun _ => "1ms".toList }
      { Package := "db".toList, Level := "ERROR".toList, Message := "down".toList,
        Attrs := none, ElapsedNano := 0 } = "db".toList ++ "(ERROR):".toList :=
  ((PrettyLabel_plain
    { red := "<red>".toList, reset := "<reset>".toList,
      colorFor := fun _ => "<color>".toList, now := "12:00:00.000".toList,
      duration := fun _ => "1ms".toList }
    (StandardWriter.mk false 2 SettingsMap.empty)
    { Package := "db".toList, Level := "ERROR".toList, Message := "down".toList,
      Attrs := none, ElapsedNano := 0 } rfl).1 rfl).2

/-- C17: `StandardWriter.Write e` makes exactly one call of `fmt.Fprintln`, to
the writer's target and with the formatted line, when `IsEnabled` is true at
the package and level of `e`, and makes no call when it is false; an event
whose level is none of `INFO`, `TIMER`, `ERROR` is never written. -/
theorem Write_gated (ext : Externals) (sw : StandardWriter) (e : Log) :
    (sw.IsEnabled e.Package e.Level = true →
      sw.Write ext e = [{ target := sw.Target, text := sw.Format ext e }]) ∧
    (sw.IsEnabled e.Package e.Level = false → sw.Write ext e = []) ∧
    (e.Level ≠ "INFO".toList → e.Level ≠ "TIMER".toList → e.Level ≠ "ERROR".toList →
      sw.Write ext e = []) := by
  refine ⟨?_, ?_, ?_⟩
  · intro h
    simp only [StandardWriter.Write, h, if_true]
  · intro h
    simp only [StandardWriter.Write, h]
    rfl
  · intro h1 h2 h3
    have h : sw.IsEnabled e.Package e.Level = false := by
      simp only [StandardWriter.IsEnabled, if_neg h1, if_neg h2, if_neg h3]
    simp only [StandardWriter.Write, h]
    rfl

/-- Witness for C17: a writer with the settings of `db@error`, at an `ERROR`
event and at a `DEBUG` event of `db`. -/
theorem Write_gated_witness :
    ((StandardWriter.mk false 2 (parsePackageSettings "db@error".toList verbose)).Write
      { red := "<red>".toList, reset := "<reset>".toList,
        colorFor := fun _ => "<color>".toList, now := "12:00:00.000".toList,
        duration := fun _ => "1ms".toList }
      { Package := "db".toList, Level := "ERROR".toList, Message := "down".toList,
        Attrs := none, ElapsedNano := 0 }).length = 1 ∧
    (StandardWriter.mk false 2 (parsePackageSettings "db@error".toList verbose)).Write
      { red := "<red>".toList, reset := "<reset>".toList,
        colorFor := fun _ => "<color>".toList, now := "12:00:00.000".toList,
        duration := fun _ => "1ms".toList }
      { Package := "db".toList, Level := "DEBUG".toList, Message := "down".toList,
        Attrs := none, ElapsedNano := 0 } = [] :=
  ⟨by
    rw [(Write_gated _ (StandardWriter.mk false 2
      (parsePackageSettings "db@error".toList verbose)) _).1 (by decide)]
    rfl,
   (Write_gated _ (StandardWriter.mk false 2
      (parsePackageSettings "db@error".toList verbose)) _).2.2
      (by decide) (by decide) (by decide)⟩

end Logger
